import Mathlib

/-
Verification of the Monte Carlo pi speed-test script
(pi_estimates/Cython_and_Numba/single_test_run.py).

Shallow embedding conventions:
  * Python floats are modelled as rationals (ℚ); the random stream of
    `random.uniform(-1, 1)` draws is an explicit function `g : ℕ → ℚ`
    consumed in order (iteration i of the sampling loop reads `g (2*i)`
    for x and `g (2*i+1)` for y, and successive estimator calls continue
    further along the stream, as the process-global generator does).
  * `time.time()` is modelled as an explicit clock stream `clock : ℕ → ℚ`:
    `clock 0` is the reading taken before the loop, `clock 1` the reading
    taken in the print after the loop.
  * Standard output is a list of `Line` values, one per `print` call; the
    payload of each constructor is the dynamic value interpolated into the
    printed text.  `run_test` additionally records a `call` event for each
    invocation of the selected estimator, so ordering claims between calls
    and prints can be stated.
  * A Python function that raises is embedded with `Except String`.
-/

set_option autoImplicit false

namespace PiTest

/-- One printed line of standard output.  Each constructor corresponds to
one `print` statement of the script, carrying the interpolated value. -/
inductive Line where
  /-- print("Final Estimation of Pi=", pi_estimate) in the estimator -/
  | finalEstimate (pi_estimate : ℚ)
  /-- the f-string printing (time.time() - start_time)/n_repeats to 4 decimal
  places, in the only_time branch of run_test -/
  | avgTime (t : ℚ)
  /-- the f-string "Test run was done with ..." showing n_points in
  scientific notation -/
  | testRun (n_points : ℕ)
  /-- the f-string "Estimating pi took ... seconds per run." -/
  | estimatingTook (t : ℚ)
  deriving DecidableEq

/-- Result of calling an embedded Python function: the lines it printed and
the value it returned (`none` models Python's implicit `return None`). -/
structure PyResult where
  output : List Line
  ret : Option ℚ
  deriving DecidableEq

/-- The `within_circle` counter of `estimate_pi_numba` after `n` iterations
of the sampling loop: iteration i draws x = g (2*i), y = g (2*i+1), computes
radius_squared = x**2 + y**2 and increments the counter when
radius_squared <= 1. -/
def within_circle (g : ℕ → ℚ) : ℕ → ℕ
  | 0 => 0
  | Nat.succ i =>
      within_circle g i +
        (if (g (2 * i)) ^ 2 + (g (2 * i + 1)) ^ 2 ≤ 1 then 1 else 0)

/-- The local `pi_estimate = 4 * within_circle / n_points` of the estimator
(true division: the quotient is computed in ℚ, not truncated). -/
def pi_estimate (g : ℕ → ℚ) (n_points : ℕ) : ℚ :=
  4 * (within_circle g n_points : ℚ) / (n_points : ℚ)

/-- Embedding of `estimate_pi_numba(n_points, show_estimate)`.  It runs the
sampling loop, computes `pi_estimate`, prints it when `not show_estimate`
holds (the guard is `if not show_estimate:` in the source), and returns
None (the Python function is annotated `-> None` and has no return
statement). -/
def estimate_pi_numba (g : ℕ → ℚ) (n_points : ℕ) (show_estimate : Bool) :
    PyResult :=
  { output :=
      if show_estimate = false then
        [Line.finalEstimate (pi_estimate g n_points)]
      else []
    ret := none }

/-- Modelled from the spec: `estimate_pi_cython.estimate_pi`, the Cython
build of the same kernel, lives in `estimate_pi_cython.pyx`, which is not
under src/.  The spec (sections 2 and 4.1) describes a single numeric
kernel executed under both backends, and `run_test` calls both functions
with the same two positional arguments, so the Cython estimator is
modelled with the same behaviour as `estimate_pi_numba`. -/
def estimate_pi (g : ℕ → ℚ) (n_points : ℕ) (show_estimate : Bool) :
    PyResult :=
  { output :=
      if show_estimate = false then
        [Line.finalEstimate (pi_estimate g n_points)]
      else []
    ret := none }

/-- One event observed during `run_test`: an invocation of the selected
estimator (with the jit key and the n_points argument), or a printed
line (the estimator's own prints are also recorded as `out` events). -/
inductive Event where
  | call (jit : String) (n_points : ℕ)
  | out (l : Line)
  deriving DecidableEq

/-- Whether an event is an estimator invocation. -/
def is_call : Event → Bool
  | Event.call _ _ => true
  | Event.out _ => false

/-- Whether a line is the estimator's "Final Estimation of Pi=" print. -/
def is_final_estimate : Line → Bool
  | Line.finalEstimate _ => true
  | _ => false

/-- The printed lines of an event trace, in order. -/
def out_lines (evs : List Event) : List Line :=
  evs.filterMap fun e =>
    match e with
    | Event.out l => some l
    | Event.call _ _ => none

/-- Printed lines of a possibly-failing run: a run that raised printed
nothing at the point of the raise beyond what its trace records, and a
propagated exception produces no trace at all in this embedding. -/
def lines_of (r : Except String (List Event)) : List Line :=
  match r with
  | Except.ok evs => out_lines evs
  | Except.error _ => []

/-- Event trace of a possibly-failing run (empty when it raised). -/
def events_of (r : Except String (List Event)) : List Event :=
  match r with
  | Except.ok evs => evs
  | Except.error _ => []

/-- The `fcns` dictionary of `run_test`; a missing key is `none` (a lookup
on it raises KeyError). -/
def fcns (jit : String) : Option ((ℕ → ℚ) → ℕ → Bool → PyResult) :=
  if jit = "numba" then some estimate_pi_numba
  else if jit = "cython" then some estimate_pi
  else none

/-- The random stream as seen after `k` draws have been consumed. -/
def stream_from (g : ℕ → ℚ) (k : ℕ) : ℕ → ℚ :=
  fun i => g (k + i)

/-- The repeat loop of `run_test`: `r` iterations, each calling
`f(n_points, only_time)`; iteration i starts after 2 * n_points * i draws
of the shared random stream have been consumed by earlier iterations.
Produces the event trace of the loop. -/
def run_loop (g : ℕ → ℚ) (f : (ℕ → ℚ) → ℕ → Bool → PyResult)
    (jit : String) (n_points : ℕ) (only_time : Bool) : ℕ → List Event
  | 0 => []
  | Nat.succ i =>
      run_loop g f jit n_points only_time i ++
        Event.call jit n_points ::
          (f (stream_from g (2 * n_points * i)) n_points only_time).output.map
            Event.out

/-- The prints after the loop of `run_test`: in the only_time branch one
line with the average time to 4 decimal places, otherwise the
"Test run was done with ..." line followed by the
"Estimating pi took ... seconds per run." line. -/
def timing_output (clock : ℕ → ℚ) (n_points n_repeats : ℕ)
    (only_time : Bool) : List Event :=
  if only_time then
    [Event.out (Line.avgTime ((clock 1 - clock 0) / (n_repeats : ℚ)))]
  else
    [Event.out (Line.testRun n_points),
     Event.out (Line.estimatingTook ((clock 1 - clock 0) / (n_repeats : ℚ)))]

/-- Embedding of `run_test(n_points, n_repeats, only_time, jit)`.  The
dictionary lookup `fcns[jit]` happens inside the loop body, so with zero
repeats no lookup occurs; with at least one repeat an unknown key raises
KeyError in the first iteration, before any estimation and before any
print.  (The source evaluates `fcns[jit]` afresh each iteration; since
`fcns` is constant this is observably the first-iteration lookup.) -/
def run_test (g : ℕ → ℚ) (clock : ℕ → ℚ) (n_points n_repeats : ℕ)
    (only_time : Bool) (jit : String) : Except String (List Event) :=
  if n_repeats = 0 then
    Except.ok (timing_output clock n_points n_repeats only_time)
  else
    match fcns jit with
    | none => Except.error ("KeyError: " ++ jit)
    | some f =>
        Except.ok
          (run_loop g f jit n_points only_time n_repeats ++
            timing_output clock n_points n_repeats only_time)

/-- Accumulator pass of decimal-literal parsing: consumes the remaining
characters, failing on the first non-digit. -/
def parse_digits : ℕ → List Char → Option ℕ
  | acc, [] => some acc
  | acc, c :: cs =>
      if c.isDigit then parse_digits (10 * acc + (c.toNat - 48)) cs
      else none

/-- The `int(value)` conversion applied by Python to a command-line token:
an optional leading minus sign followed by at least one decimal digit
(surrounding whitespace, a plus sign and underscore separators accepted by
Python are not modelled; no claim depends on them). -/
def str_to_int (s : String) : Option Int :=
  match s.data with
  | [] => none
  | c :: cs =>
      if c = '-' then
        match cs with
        | [] => none
        | _ :: _ => (parse_digits 0 cs).map fun n => -(n : ℤ)
      else
        (parse_digits 0 (c :: cs)).map fun n => (n : ℤ)

/-- Embedding of `positive_integer(value)`: `int(value)` (a non-numeric
string raises ValueError, which argparse reports as an invalid-argument
error), then an ArgumentTypeError when the integer is <= 0, otherwise the
integer is returned unchanged. -/
def positive_integer (value : String) : Except String Int :=
  match str_to_int value with
  | none => Except.error (value ++ " is not a valid int")
  | some int_value =>
      if int_value ≤ 0 then
        Except.error (value ++ " is an invalid positive int value")
      else
        Except.ok int_value

/-- The parsed argument namespace of `main`, with argparse's default
values. -/
structure Args where
  n_points : Int := 10000000
  jit : String := "cython"
  n_repeats : Int := 10
  only_time : Bool := false
  deriving DecidableEq

/-- The argparse loop of `main` over the token list: `-p` or `--n_points`
and `-r` or `--n_repeats` take one value converted by `positive_integer`;
`--jit`
takes one value restricted to the choices numba and cython; `--only-time`
is a store_true flag; anything else is an unrecognized-arguments error.
(Abbreviated long options and `--opt=value` spellings of argparse are not
modelled.) -/
def parse_tokens : Args → List String → Except String Args
  | a, [] => Except.ok a
  | a, t :: rest =>
    if t = "-p" ∨ t = "--n_points" then
      match rest with
      | [] => Except.error "argument -p/--n_points: expected one argument"
      | v :: rest2 =>
          match positive_integer v with
          | Except.error e => Except.error e
          | Except.ok n => parse_tokens { a with n_points := n } rest2
    else if t = "--jit" then
      match rest with
      | [] => Except.error "argument --jit: expected one argument"
      | v :: rest2 =>
          if v = "numba" ∨ v = "cython" then
            parse_tokens { a with jit := v } rest2
          else
            Except.error ("argument --jit: invalid choice: " ++ v)
    else if t = "-r" ∨ t = "--n_repeats" then
      match rest with
      | [] => Except.error "argument -r/--n_repeats: expected one argument"
      | v :: rest2 =>
          match positive_integer v with
          | Except.error e => Except.error e
          | Except.ok n => parse_tokens { a with n_repeats := n } rest2
    else if t = "--only-time" then
      parse_tokens { a with only_time := true } rest
    else
      Except.error ("unrecognized arguments: " ++ t)

/-- `parser.parse_args(arguments)`: fold the tokens over the defaults. -/
def parse_args (arguments : List String) : Except String Args :=
  parse_tokens {} arguments

/-- Embedding of `main(arguments)`: parse the command line (an argparse
failure exits with a non-zero status before anything runs), then call
`run_test(args.n_points, args.n_repeats, args.only_time, args.jit)`.
`Int.toNat` matches `range(n)` being empty for non-positive `n`; parsing
guarantees positivity anyway. -/
def main (g : ℕ → ℚ) (clock : ℕ → ℚ) (arguments : List String) :
    Except String (List Event) :=
  match parse_args arguments with
  | Except.error e => Except.error e
  | Except.ok args =>
      run_test g clock args.n_points.toNat args.n_repeats.toNat
        args.only_time args.jit

/-- The value printed by the format specifier .4f, scaled by 10^4 and
rounded to the nearest integer (ties rounded up; this stands in for the
round-to-nearest of the binary double, and is only applied to the
non-negative timer values the script formats). -/
def scaled4 (q : ℚ) : ℕ :=
  (⌊q * 10000 + 1 / 2⌋).toNat

/-- The four fractional digits printed by the format specifier .4f. -/
def fracDigits4 (q : ℚ) : List Char :=
  [Nat.digitChar (scaled4 q / 1000 % 10),
   Nat.digitChar (scaled4 q / 100 % 10),
   Nat.digitChar (scaled4 q / 10 % 10),
   Nat.digitChar (scaled4 q % 10)]

/-- Rendering of the format specifier .4f on a non-negative value: the
integer part, a decimal point, then exactly four fractional digits. -/
def formatFixed4 (q : ℚ) : String :=
  Nat.repr (scaled4 q / 10000) ++ "." ++ String.mk (fracDigits4 q)

/- Helper lemmas about the embedding. -/

theorem within_circle_le (g : ℕ → ℚ) (n : ℕ) : within_circle g n ≤ n := by
  induction n with
  | zero => simp [within_circle]
  | succ i ih =>
      rw [within_circle]
      split <;> omega

theorem within_circle_congr (g1 g2 : ℕ → ℚ) (n : ℕ)
    (h : ∀ i, i < 2 * n → g1 i = g2 i) :
    within_circle g1 n = within_circle g2 n := by
  induction n with
  | zero => rfl
  | succ i ih =>
      rw [within_circle, within_circle]
      rw [ih fun j hj => h j (by omega)]
      rw [h (2 * i) (by omega), h (2 * i + 1) (by omega)]

theorem out_lines_append (a b : List Event) :
    out_lines (a ++ b) = out_lines a ++ out_lines b := by
  simp [out_lines]

theorem out_lines_map_out (l : List Line) :
    out_lines (l.map Event.out) = l := by
  induction l with
  | nil => rfl
  | cons x xs ih => simp [out_lines] at ih ⊢; exact ih

theorem filter_call_map_out (l : List Line) :
    (l.map Event.out).filter is_call = [] := by
  induction l with
  | nil => rfl
  | cons x xs ih => simp [is_call]

theorem run_loop_filter_call (g : ℕ → ℚ)
    (f : (ℕ → ℚ) → ℕ → Bool → PyResult) (jit : String)
    (n_points : ℕ) (only_time : Bool) (r : ℕ) :
    (run_loop g f jit n_points only_time r).filter is_call =
      List.replicate r (Event.call jit n_points) := by
  induction r with
  | zero => rfl
  | succ i ih =>
      rw [run_loop, List.replicate_succ']
      simp [List.filter_append, ih, List.filter_cons, is_call,
        filter_call_map_out]

theorem run_loop_out_lines_silent (g : ℕ → ℚ)
    (f : (ℕ → ℚ) → ℕ → Bool → PyResult) (jit : String)
    (n_points : ℕ) (only_time : Bool) (r : ℕ)
    (hf : ∀ g', (f g' n_points only_time).output = []) :
    out_lines (run_loop g f jit n_points only_time r) = [] := by
  induction r with
  | zero => rfl
  | succ i ih =>
      rw [run_loop, out_lines_append, ih]
      simp [out_lines, hf]

theorem run_loop_out_lines_numba (g : ℕ → ℚ) (jit : String)
    (n_points : ℕ) (r : ℕ) :
    out_lines (run_loop g estimate_pi_numba jit n_points false r) =
      (List.range r).map fun i =>
        Line.finalEstimate
          (pi_estimate (stream_from g (2 * n_points * i)) n_points) := by
  induction r with
  | zero => rfl
  | succ i ih =>
      rw [run_loop, out_lines_append, ih, List.range_succ]
      simp [estimate_pi_numba, out_lines]

theorem digitChar_isDigit (d : ℕ) (h : d < 10) :
    (Nat.digitChar d).isDigit = true := by
  interval_cases d <;> decide

theorem positive_integer_pos (v : String) (k : Int)
    (h : positive_integer v = Except.ok k) :
    0 < k ∧ str_to_int v = some k := by
  unfold positive_integer at h
  cases hs : str_to_int v with
  | none => rw [hs] at h; exact absurd h (by simp)
  | some m =>
      rw [hs] at h
      simp only at h
      by_cases hm : m ≤ 0
      · rw [if_pos hm] at h
        exact absurd h (by simp)
      · rw [if_neg hm] at h
        injection h with h
        subst h
        exact ⟨by omega, rfl⟩

theorem parse_tokens_invariant (argv : List String) (a b : Args)
    (hb : parse_tokens a argv = Except.ok b) :
    (0 < a.n_points → 0 < b.n_points) ∧
      (0 < a.n_repeats → 0 < b.n_repeats) ∧
      ((a.jit = "numba" ∨ a.jit = "cython") →
        (b.jit = "numba" ∨ b.jit = "cython")) := by
  have key : ∀ (fuel : ℕ) (argv : List String), argv.length ≤ fuel →
      ∀ a b : Args, parse_tokens a argv = Except.ok b →
      (0 < a.n_points → 0 < b.n_points) ∧
        (0 < a.n_repeats → 0 < b.n_repeats) ∧
        ((a.jit = "numba" ∨ a.jit = "cython") →
          (b.jit = "numba" ∨ b.jit = "cython")) := by
    intro fuel
    induction fuel with
    | zero =>
        intro argv hlen a b hb
        have : argv = [] := List.length_eq_zero.mp (Nat.le_zero.mp hlen)
        subst this
        rw [parse_tokens] at hb
        cases hb
        exact ⟨id, id, id⟩
    | succ n ih =>
        intro argv hlen a b hb
        cases argv with
        | nil =>
            rw [parse_tokens] at hb
            cases hb
            exact ⟨id, id, id⟩
        | cons t rest =>
            rw [parse_tokens.eq_def] at hb
            simp only at hb
            simp only [List.length_cons] at hlen
            by_cases h1 : t = "-p" ∨ t = "--n_points"
            · rw [if_pos h1] at hb
              cases rest with
              | nil => exact absurd hb (by simp)
              | cons v rest2 =>
                  simp only at hb
                  cases hpi : positive_integer v with
                  | error e => rw [hpi] at hb; exact absurd hb (by simp)
                  | ok k =>
                      rw [hpi] at hb
                      simp only at hb
                      have hk := (positive_integer_pos v k hpi).1
                      have := ih rest2 (by simp at hlen ⊢; omega) _ b hb
                      exact ⟨fun _ => this.1 hk, fun hr => this.2.1 hr,
                        fun hj => this.2.2 hj⟩
            · rw [if_neg h1] at hb
              by_cases h2 : t = "--jit"
              · rw [if_pos h2] at hb
                cases rest with
                | nil => exact absurd hb (by simp)
                | cons v rest2 =>
                    simp only at hb
                    by_cases h3 : v = "numba" ∨ v = "cython"
                    · rw [if_pos h3] at hb
                      have := ih rest2 (by simp at hlen ⊢; omega) _ b hb
                      exact ⟨fun hp => this.1 hp, fun hr => this.2.1 hr,
                        fun _ => this.2.2 h3⟩
                    · rw [if_neg h3] at hb
                      exact absurd hb (by simp)
              · rw [if_neg h2] at hb
                by_cases h3 : t = "-r" ∨ t = "--n_repeats"
                · rw [if_pos h3] at hb
                  cases rest with
                  | nil => exact absurd hb (by simp)
                  | cons v rest2 =>
                      simp only at hb
                      cases hpi : positive_integer v with
                      | error e => rw [hpi] at hb; exact absurd hb (by simp)
                      | ok k =>
                          rw [hpi] at hb
                          simp only at hb
                          have hk := (positive_integer_pos v k hpi).1
                          have := ih rest2 (by simp at hlen ⊢; omega) _ b hb
                          exact ⟨fun hp => this.1 hp, fun _ => this.2.1 hk,
                            fun hj => this.2.2 hj⟩
                · rw [if_neg h3] at hb
                  by_cases h4 : t = "--only-time"
                  · rw [if_pos h4] at hb
                    have := ih rest (by omega) _ b hb
                    exact ⟨fun hp => this.1 hp, fun hr => this.2.1 hr,
                      fun hj => this.2.2 hj⟩
                  · rw [if_neg h4] at hb
                    exact absurd hb (by simp)
  exact key argv.length argv le_rfl a b hb

/-- A concrete random stream used to instantiate theorems. -/
def zero_stream : ℕ → ℚ :=
  fun _ => 0

/-- A concrete clock stream used to instantiate theorems (each reading one
second after the previous). -/
def unit_clock : ℕ → ℚ :=
  fun i => (i : ℚ)

/-- A second concrete stream, agreeing with `zero_stream` on the first four
draws only. -/
def alt_stream : ℕ → ℚ :=
  fun i => if i < 4 then 0 else 5

/- Shared lemmas about whole runs of run_test. -/

theorem run_test_numba_false_lines (g clock : ℕ → ℚ)
    (n_points n_repeats : ℕ) :
    lines_of (run_test g clock n_points n_repeats false "numba") =
      ((List.range n_repeats).map fun i =>
        Line.finalEstimate
          (pi_estimate (stream_from g (2 * n_points * i)) n_points)) ++
      [Line.testRun n_points,
       Line.estimatingTook ((clock 1 - clock 0) / (n_repeats : ℚ))] := by
  unfold run_test
  by_cases h : n_repeats = 0
  · subst h
    simp [lines_of, timing_output, out_lines]
  · rw [if_neg h]
    have hf : fcns "numba" = some estimate_pi_numba := rfl
    rw [hf]
    simp only [lines_of]
    rw [out_lines_append, run_loop_out_lines_numba]
    simp [timing_output, out_lines]

theorem run_test_true_lines (g clock : ℕ → ℚ) (n_points n_repeats : ℕ)
    (jit : String) (hj : jit = "numba" ∨ jit = "cython") :
    lines_of (run_test g clock n_points n_repeats true jit) =
      [Line.avgTime ((clock 1 - clock 0) / (n_repeats : ℚ))] := by
  unfold run_test
  by_cases h : n_repeats = 0
  · subst h
    simp [lines_of, timing_output, out_lines]
  · rw [if_neg h]
    rcases hj with hj | hj <;> subst hj
    · have hf : fcns "numba" = some estimate_pi_numba := rfl
      rw [hf]
      simp only [lines_of]
      rw [out_lines_append,
        run_loop_out_lines_silent _ _ _ _ _ _ fun g' => rfl]
      simp [timing_output, out_lines]
    · have hf : fcns "cython" = some estimate_pi := rfl
      rw [hf]
      simp only [lines_of]
      rw [out_lines_append,
        run_loop_out_lines_silent _ _ _ _ _ _ fun g' => rfl]
      simp [timing_output, out_lines]

/- The claims. -/

/-- C1 (counterexample): at n_points = 1 the estimator does not return the
value 4 * counter / n_points — it returns nothing (None), whichever way
show_estimate is set. -/
theorem estimator_returns_float_cex :
    (estimate_pi_numba zero_stream 1 true).ret = none ∧
      (estimate_pi_numba zero_stream 1 false).ret = none ∧
      ¬ (estimate_pi_numba zero_stream 1 true).ret =
          some (pi_estimate zero_stream 1) :=
  ⟨rfl, rfl, by simp [estimate_pi_numba]⟩

/-- C1 (amended): for every n_points > 0 the estimator computes the value
4 * counter / n_points, where counter is the number of sampled points with
x*x + y*y <= 1, but returns None rather than that float; the computed
value is observable only through the print emitted when show_estimate is
false. -/
theorem estimator_returns_none_and_prints_estimate (g : ℕ → ℚ)
    (n_points : ℕ) (show_estimate : Bool) (_h : 0 < n_points) :
    (estimate_pi_numba g n_points show_estimate).ret = none ∧
      (estimate_pi_numba g n_points false).output =
        [Line.finalEstimate
          (4 * (within_circle g n_points : ℚ) / (n_points : ℚ))] :=
  ⟨rfl, by simp [estimate_pi_numba, pi_estimate]⟩

/-- Witness for C1's amended theorem at n_points = 1. -/
theorem estimator_returns_none_and_prints_estimate_witness :
    0 < 1 ∧
      ((estimate_pi_numba zero_stream 1 true).ret = none ∧
        (estimate_pi_numba zero_stream 1 false).output =
          [Line.finalEstimate
            (4 * (within_circle zero_stream 1 : ℚ) / ((1 : ℕ) : ℚ))]) :=
  ⟨by decide,
    estimator_returns_none_and_prints_estimate zero_stream 1 true (by decide)⟩

/-- C2: for every n_points > 0 the within_circle counter ends between 0 and
n_points (it starts at 0 and each of the n_points iterations adds at most
1), so the estimate 4 * within_circle / n_points lies in [0, 4]. -/
theorem estimate_within_zero_to_four (g : ℕ → ℚ) (n_points : ℕ)
    (h : 0 < n_points) :
    within_circle g n_points ≤ n_points ∧
      0 ≤ pi_estimate g n_points ∧ pi_estimate g n_points ≤ 4 := by
  refine ⟨within_circle_le g n_points, ?_, ?_⟩
  · unfold pi_estimate
    positivity
  · unfold pi_estimate
    rw [div_le_iff₀ (by exact_mod_cast h)]
    have hle : (within_circle g n_points : ℚ) ≤ (n_points : ℚ) := by
      exact_mod_cast within_circle_le g n_points
    nlinarith

/-- Witness for C2 at n_points = 3. -/
theorem estimate_within_zero_to_four_witness :
    0 < 3 ∧
      (within_circle zero_stream 3 ≤ 3 ∧
        0 ≤ pi_estimate zero_stream 3 ∧ pi_estimate zero_stream 3 ≤ 4) :=
  ⟨by decide, estimate_within_zero_to_four zero_stream 3 (by decide)⟩

/-- C3 (counterexample): a run with n_points = 1, n_repeats = 2,
only_time = false and the numba backend prints four lines, two of which
are per-repeat estimate lines — not the two lines the claim states. -/
theorem only_time_false_two_lines_cex :
    (lines_of (run_test zero_stream unit_clock 1 2 false "numba")).length =
        4 ∧
      ((lines_of (run_test zero_stream unit_clock 1 2 false "numba")).filter
          is_final_estimate).length = 2 :=
  ⟨rfl, rfl⟩

/-- C3 (amended): when only_time is false the harness's standard output is
n_repeats + 2 lines: one "Final Estimation of Pi=" line per repeat
(printed by the estimator, whose show_estimate guard fires when only_time
is false), then the sample-count line in scientific notation and the
sentence reporting the average seconds per run to 4 decimal places. -/
theorem only_time_false_prints_estimates_and_two_harness_lines
    (g clock : ℕ → ℚ) (n_points n_repeats : ℕ) :
    lines_of (run_test g clock n_points n_repeats false "numba") =
      ((List.range n_repeats).map fun i =>
        Line.finalEstimate
          (pi_estimate (stream_from g (2 * n_points * i)) n_points)) ++
      [Line.testRun n_points,
       Line.estimatingTook ((clock 1 - clock 0) / (n_repeats : ℚ))] :=
  run_test_numba_false_lines g clock n_points n_repeats

/-- C4: the estimator's print is guarded by the negation of show_estimate
(show_estimate = true prints nothing, show_estimate = false prints the
estimate), and since run_test passes only_time as show_estimate, estimate
lines appear exactly when only_time is false — once per repeat — and never
when only_time is true. -/
theorem show_estimate_guard_inverted (g clock : ℕ → ℚ)
    (n_points n_repeats : ℕ) :
    (estimate_pi_numba g n_points true).output = [] ∧
      (estimate_pi_numba g n_points false).output =
        [Line.finalEstimate (pi_estimate g n_points)] ∧
      ((lines_of (run_test g clock n_points n_repeats true "numba")).filter
          is_final_estimate) = [] ∧
      ((lines_of (run_test g clock n_points n_repeats false "numba")).filter
          is_final_estimate).length = n_repeats := by
  refine ⟨rfl, rfl, ?_, ?_⟩
  · rw [run_test_true_lines g clock n_points n_repeats "numba" (Or.inl rfl)]
    simp [is_final_estimate]
  · rw [run_test_numba_false_lines g clock n_points n_repeats]
    rw [List.filter_append]
    have hmap :
        ((List.range n_repeats).map fun i =>
          Line.finalEstimate
            (pi_estimate (stream_from g (2 * n_points * i))
              n_points)).filter is_final_estimate =
        (List.range n_repeats).map fun i =>
          Line.finalEstimate
            (pi_estimate (stream_from g (2 * n_points * i)) n_points) := by
      rw [List.filter_map]
      have hcomp :
          (is_final_estimate ∘ fun i =>
            Line.finalEstimate
              (pi_estimate (stream_from g (2 * n_points * i)) n_points)) =
            fun _ => true :=
        funext fun i => rfl
      rw [hcomp, List.filter_true]
    rw [hmap]
    simp [is_final_estimate]

/-- C5: positive_integer raises for every parsed integer <= 0 and returns
the parsed integer unchanged otherwise, and every successful command-line
parse carries n_points > 0 and n_repeats > 0 (non-positive values are
rejected before run_test runs, and the defaults are positive). -/
theorem validation_rejects_nonpositive :
    (∀ v k, positive_integer v = Except.ok k →
        0 < k ∧ str_to_int v = some k) ∧
      (∀ v k, str_to_int v = some k → k ≤ 0 →
        ∃ e, positive_integer v = Except.error e) ∧
      (∀ argv a, parse_args argv = Except.ok a →
        0 < a.n_points ∧ 0 < a.n_repeats) := by
  refine ⟨fun v k h => positive_integer_pos v k h, ?_, ?_⟩
  · intro v k hs hk
    refine ⟨v ++ " is an invalid positive int value", ?_⟩
    unfold positive_integer
    rw [hs]
    simp only
    rw [if_pos hk]
  · intro argv a ha
    have hinv := parse_tokens_invariant argv {} a ha
    exact ⟨hinv.1 (by decide), hinv.2.1 (by decide)⟩

/-- Witness for C5: a positive token is accepted unchanged, a negative one
is rejected, and a concrete successful parse carries positive counts. -/
theorem validation_rejects_nonpositive_witness :
    (0 < (5 : ℤ) ∧ str_to_int "5" = some 5) ∧
      (∃ e, positive_integer "-5" = Except.error e) ∧
      (0 < (7 : ℤ) ∧ 0 < (2 : ℤ)) :=
  ⟨validation_rejects_nonpositive.1 "5" 5 (by rfl),
    validation_rejects_nonpositive.2.1 "-5" (-5) (by rfl) (by decide),
    validation_rejects_nonpositive.2.2 ["-p", "7", "-r", "2"]
      { n_points := 7, jit := "cython", n_repeats := 2, only_time := false }
      (by rfl)⟩

/-- C6: the --jit flag accepts only the closed enumeration numba, cython:
any other value makes main exit with an error (non-zero status) producing
no output, and every successful parse carries a recognized backend. -/
theorem jit_choices_closed_enumeration (g clock : ℕ → ℚ) (v : String)
    (h1 : v ≠ "numba") (h2 : v ≠ "cython") :
    (∃ e, main g clock ["--jit", v] = Except.error e) ∧
      lines_of (main g clock ["--jit", v]) = [] ∧
      (∀ argv a, parse_args argv = Except.ok a →
        (a.jit = "numba" ∨ a.jit = "cython")) := by
  have hmain : main g clock ["--jit", v] =
      Except.error ("argument --jit: invalid choice: " ++ v) := by
    have hv : ¬ (v = "numba" ∨ v = "cython") := by
      rintro (h | h)
      · exact h1 h
      · exact h2 h
    unfold main parse_args
    rw [parse_tokens.eq_def]
    simp [hv]
  refine ⟨⟨_, hmain⟩, by rw [hmain]; rfl, ?_⟩
  intro argv a ha
  exact (parse_tokens_invariant argv {} a ha).2.2 (Or.inr rfl)

/-- Witness for C6 with the unrecognized backend value pypy. -/
theorem jit_choices_closed_enumeration_witness :
    ("pypy" ≠ "numba" ∧ "pypy" ≠ "cython") ∧
      ((∃ e, main zero_stream unit_clock ["--jit", "pypy"] =
          Except.error e) ∧
        lines_of (main zero_stream unit_clock ["--jit", "pypy"]) = [] ∧
        (∀ argv a, parse_args argv = Except.ok a →
          (a.jit = "numba" ∨ a.jit = "cython"))) :=
  ⟨⟨by decide, by decide⟩,
    jit_choices_closed_enumeration zero_stream unit_clock "pypy"
      (by decide) (by decide)⟩

/-- C7: with a recognized backend, run_test invokes the selected estimator
with argument n_points exactly n_repeats times, in sequence, all before
the timing output is printed (the timing lines contain no call events). -/
theorem run_test_calls_estimator_n_repeats_times (g clock : ℕ → ℚ)
    (n_points n_repeats : ℕ) (only_time : Bool) (jit : String)
    (hj : jit = "numba" ∨ jit = "cython") :
    ∃ body,
      run_test g clock n_points n_repeats only_time jit =
          Except.ok
            (body ++ timing_output clock n_points n_repeats only_time) ∧
        body.filter is_call =
          List.replicate n_repeats (Event.call jit n_points) ∧
        (timing_output clock n_points n_repeats only_time).filter is_call =
          [] := by
  have htiming :
      (timing_output clock n_points n_repeats only_time).filter is_call =
        [] := by
    cases only_time <;> simp [timing_output, is_call]
  by_cases h : n_repeats = 0
  · subst h
    exact ⟨[], by unfold run_test; simp, rfl, htiming⟩
  · rcases hj with hj | hj <;> subst hj
    · refine ⟨run_loop g estimate_pi_numba "numba" n_points only_time
        n_repeats, ?_, run_loop_filter_call _ _ _ _ _ _, htiming⟩
      unfold run_test
      rw [if_neg h]
      rfl
    · refine ⟨run_loop g estimate_pi "cython" n_points only_time
        n_repeats, ?_, run_loop_filter_call _ _ _ _ _ _, htiming⟩
      unfold run_test
      rw [if_neg h]
      rfl

/-- Witness for C7 with the numba backend, n_points = 1, n_repeats = 2. -/
theorem run_test_calls_estimator_n_repeats_times_witness :
    ("numba" = "numba" ∨ "numba" = "cython") ∧
      (∃ body,
        run_test zero_stream unit_clock 1 2 false "numba" =
            Except.ok (body ++ timing_output unit_clock 1 2 false) ∧
          body.filter is_call = List.replicate 2 (Event.call "numba" 1) ∧
          (timing_output unit_clock 1 2 false).filter is_call = []) :=
  ⟨Or.inl rfl,
    run_test_calls_estimator_n_repeats_times zero_stream unit_clock 1 2
      false "numba" (Or.inl rfl)⟩

/-- C8: with only_time true the harness prints exactly one line, the
elapsed time divided by n_repeats rendered by the .4f format — an integer
part, a point, and exactly four fractional digits — and the estimator
prints nothing in this mode. -/
theorem only_time_true_single_line (g clock : ℕ → ℚ)
    (n_points n_repeats : ℕ) (jit : String)
    (hj : jit = "numba" ∨ jit = "cython") :
    lines_of (run_test g clock n_points n_repeats true jit) =
        [Line.avgTime ((clock 1 - clock 0) / (n_repeats : ℚ))] ∧
      formatFixed4 ((clock 1 - clock 0) / (n_repeats : ℚ)) =
        Nat.repr (scaled4 ((clock 1 - clock 0) / (n_repeats : ℚ)) / 10000)
          ++ "." ++
          String.mk (fracDigits4 ((clock 1 - clock 0) / (n_repeats : ℚ)))
        ∧
      (fracDigits4 ((clock 1 - clock 0) / (n_repeats : ℚ))).length = 4 ∧
      ∀ c ∈ fracDigits4 ((clock 1 - clock 0) / (n_repeats : ℚ)),
        c.isDigit = true := by
  refine ⟨run_test_true_lines g clock n_points n_repeats jit hj, rfl, rfl,
    ?_⟩
  intro c hc
  simp only [fracDigits4, List.mem_cons, List.not_mem_nil, or_false] at hc
  rcases hc with h | h | h | h <;> subst h <;>
    exact digitChar_isDigit _ (Nat.mod_lt _ (by norm_num))

/-- Witness for C8 with the numba backend, n_points = 1, n_repeats = 2. -/
theorem only_time_true_single_line_witness :
    ("numba" = "numba" ∨ "numba" = "cython") ∧
      (lines_of (run_test zero_stream unit_clock 1 2 true "numba") =
          [Line.avgTime ((unit_clock 1 - unit_clock 0) / ((2 : ℕ) : ℚ))] ∧
        formatFixed4 ((unit_clock 1 - unit_clock 0) / ((2 : ℕ) : ℚ)) =
          Nat.repr
              (scaled4 ((unit_clock 1 - unit_clock 0) / ((2 : ℕ) : ℚ)) /
                10000) ++ "." ++
            String.mk
              (fracDigits4 ((unit_clock 1 - unit_clock 0) / ((2 : ℕ) : ℚ)))
          ∧
        (fracDigits4
            ((unit_clock 1 - unit_clock 0) / ((2 : ℕ) : ℚ))).length = 4 ∧
        ∀ c ∈ fracDigits4 ((unit_clock 1 - unit_clock 0) / ((2 : ℕ) : ℚ)),
          c.isDigit = true) :=
  ⟨Or.inl rfl,
    only_time_true_single_line zero_stream unit_clock 1 2 "numba"
      (Or.inl rfl)⟩

/-- C9: the estimator is a deterministic function of its random stream:
two streams that agree on the 2 * n_points draws an estimation consumes
produce the same within_circle count, the same pi estimate, and the same
overall result. -/
theorem estimator_deterministic (g1 g2 : ℕ → ℚ) (n_points : ℕ)
    (show_estimate : Bool)
    (h : ∀ i, i < 2 * n_points → g1 i = g2 i) :
    within_circle g1 n_points = within_circle g2 n_points ∧
      pi_estimate g1 n_points = pi_estimate g2 n_points ∧
      estimate_pi_numba g1 n_points show_estimate =
        estimate_pi_numba g2 n_points show_estimate := by
  have hw := within_circle_congr g1 g2 n_points h
  have hp : pi_estimate g1 n_points = pi_estimate g2 n_points := by
    unfold pi_estimate
    rw [hw]
  exact ⟨hw, hp, by simp [estimate_pi_numba, hp]⟩

/-- Witness for C9: two streams agreeing on the first four draws give
identical results for n_points = 2. -/
theorem estimator_deterministic_witness :
    (∀ i, i < 2 * 2 → zero_stream i = alt_stream i) ∧
      (within_circle zero_stream 2 = within_circle alt_stream 2 ∧
        pi_estimate zero_stream 2 = pi_estimate alt_stream 2 ∧
        estimate_pi_numba zero_stream 2 false =
          estimate_pi_numba alt_stream 2 false) :=
  ⟨fun i hi => by
      simp only [zero_stream, alt_stream]
      rw [if_pos (by omega)],
    estimator_deterministic zero_stream alt_stream 2 false fun i hi => by
      simp only [zero_stream, alt_stream]
      rw [if_pos (by omega)]⟩

/-- C10: calling run_test directly with a jit key outside the fcns
dictionary raises KeyError at the first loop iteration, before any
estimation and before any output; any key in the dictionary proceeds, so
the CLI choices list is the only backend validation. -/
theorem run_test_unknown_jit_keyerror (g clock : ℕ → ℚ)
    (n_points n_repeats : ℕ) (only_time : Bool) (jit : String)
    (h1 : jit ≠ "numba") (h2 : jit ≠ "cython") (hr : 0 < n_repeats) :
    run_test g clock n_points n_repeats only_time jit =
        Except.error ("KeyError: " ++ jit) ∧
      events_of (run_test g clock n_points n_repeats only_time jit) = [] ∧
      (∀ jit2, (jit2 = "numba" ∨ jit2 = "cython") →
        ∃ evs, run_test g clock n_points n_repeats only_time jit2 =
          Except.ok evs) := by
  have hf : fcns jit = none := by
    simp [fcns, h1, h2]
  have herr : run_test g clock n_points n_repeats only_time jit =
      Except.error ("KeyError: " ++ jit) := by
    unfold run_test
    rw [if_neg (by omega), hf]
  refine ⟨herr, by rw [herr]; rfl, ?_⟩
  intro jit2 hj2
  rcases hj2 with h | h <;> subst h
  · refine ⟨run_loop g estimate_pi_numba "numba" n_points only_time
        n_repeats ++ timing_output clock n_points n_repeats only_time, ?_⟩
    unfold run_test
    rw [if_neg (by omega)]
    rfl
  · refine ⟨run_loop g estimate_pi "cython" n_points only_time
        n_repeats ++ timing_output clock n_points n_repeats only_time, ?_⟩
    unfold run_test
    rw [if_neg (by omega)]
    rfl

/-- Witness for C10 with the unknown key pypy and one repeat. -/
theorem run_test_unknown_jit_keyerror_witness :
    ("pypy" ≠ "numba" ∧ "pypy" ≠ "cython" ∧ 0 < 1) ∧
      (run_test zero_stream unit_clock 1 1 false "pypy" =
          Except.error ("KeyError: " ++ "pypy") ∧
        events_of (run_test zero_stream unit_clock 1 1 false "pypy") = [] ∧
        (∀ jit2, (jit2 = "numba" ∨ jit2 = "cython") →
          ∃ evs, run_test zero_stream unit_clock 1 1 false jit2 =
            Except.ok evs)) :=
  ⟨⟨by decide, by decide, by decide⟩,
    run_test_unknown_jit_keyerror zero_stream unit_clock 1 1 false "pypy"
      (by decide) (by decide) (by decide)⟩

end PiTest
